import Mathlib

/-!
Verification model of the eng-uploader backend (src/backend/api/index.js).

The JavaScript source is shallowly embedded: JS strings become Lean `String`
(sequences of Unicode scalar values), JS numbers used as integers become `Nat`,
`Math.random()` becomes an explicit rational parameter in `[0, 1)`, the current
`Date` becomes an explicit `JsDate` value, and the S3/Mongo side effects of each
route handler are reified as explicit operation lists (`S3Op`, `DbOp`) returned
next to the HTTP response. Fallible external calls (metadata parsing, S3 puts,
DB inserts) are modelled by per-file outcome flags carried in the request
environment, mirroring which step of the handler can throw.
-/

/-- JS regex `\s`: the ECMAScript WhiteSpace and LineTerminator classes. -/
def jsWhitespace (c : Char) : Bool :=
  c.toNat = 0x9 || c.toNat = 0xa || c.toNat = 0xb || c.toNat = 0xc ||
  c.toNat = 0xd || c.toNat = 0x20 || c.toNat = 0xa0 || c.toNat = 0x1680 ||
  (0x2000 ≤ c.toNat && c.toNat ≤ 0x200a) || c.toNat = 0x2028 ||
  c.toNat = 0x2029 || c.toNat = 0x202f || c.toNat = 0x205f ||
  c.toNat = 0x3000 || c.toNat = 0xfeff

/-- Embedding of `str.replace(/\s+/g, "_")` (index.js line 103): scan left to
right; a whitespace character starts (or continues) a matched run, each maximal
run producing a single `_`; every other character is copied unchanged. The
boolean records whether the scanner is inside a whitespace run. -/
def collapseWsAux : Bool → List Char → List Char
  | _, [] => []
  | insideRun, c :: rest =>
    if jsWhitespace c then
      if insideRun then collapseWsAux true rest
      else '_' :: collapseWsAux true rest
    else c :: collapseWsAux false rest

/-- Embedding of `originalname.replace(/\s+/g, "_")` from the upload route (line 103). -/
def jsReplaceWs (s : String) : String :=
  String.mk (collapseWsAux false s.data)

/-- Spec-side counterpart of claim C1's words: the filename decomposed into
maximal runs, with every run of whitespace characters replaced by a single
underscore and every maximal non-whitespace run kept verbatim. -/
def wsRunsReplaced : List Char → List Char
  | [] => []
  | c :: rest =>
    if jsWhitespace c then
      '_' :: wsRunsReplaced (rest.dropWhile jsWhitespace)
    else
      (c :: rest.takeWhile (fun x => ! jsWhitespace x)) ++
        wsRunsReplaced (rest.dropWhile (fun x => ! jsWhitespace x))
termination_by l => l.length
decreasing_by
  · exact Nat.lt_succ_of_le ((List.dropWhile_sublist _).length_le)
  · exact Nat.lt_succ_of_le ((List.dropWhile_sublist _).length_le)

set_option maxHeartbeats 1600000 in
theorem wsRunsReplaced_nil : wsRunsReplaced [] = [] := by
  rw [wsRunsReplaced.eq_def]

theorem wsRunsReplaced_cons_ws (c : Char) (rest : List Char)
    (h : jsWhitespace c = true) :
    wsRunsReplaced (c :: rest) =
      '_' :: wsRunsReplaced (rest.dropWhile jsWhitespace) := by
  rw [wsRunsReplaced.eq_def]
  simp [h]

theorem wsRunsReplaced_cons_nonws (c : Char) (rest : List Char)
    (h : jsWhitespace c = false) :
    wsRunsReplaced (c :: rest) =
      (c :: rest.takeWhile (fun x => ! jsWhitespace x)) ++
        wsRunsReplaced (rest.dropWhile (fun x => ! jsWhitespace x)) := by
  rw [wsRunsReplaced.eq_def]
  simp [h]

theorem wsRunsReplaced_nonws_step (l : List Char) :
    wsRunsReplaced l =
      l.takeWhile (fun x => ! jsWhitespace x) ++
        wsRunsReplaced (l.dropWhile (fun x => ! jsWhitespace x)) := by
  cases l with
  | nil => simp [wsRunsReplaced_nil]
  | cons c rest =>
    cases h : jsWhitespace c with
    | false =>
      rw [wsRunsReplaced_cons_nonws c rest h]
      simp [List.takeWhile_cons, List.dropWhile_cons, h]
    | true =>
      rw [wsRunsReplaced_cons_ws c rest h]
      simp [List.takeWhile_cons, List.dropWhile_cons, h, wsRunsReplaced_cons_ws, h]

theorem collapseWsAux_eq_wsRunsReplaced (l : List Char) :
    collapseWsAux false l = wsRunsReplaced l ∧
      collapseWsAux true l = wsRunsReplaced (l.dropWhile jsWhitespace) := by
  induction l with
  | nil => exact ⟨wsRunsReplaced_nil.symm, by simp [wsRunsReplaced_nil, collapseWsAux]⟩
  | cons c rest ih =>
    cases h : jsWhitespace c with
    | false =>
      have step : collapseWsAux false (c :: rest) = c :: collapseWsAux false rest := by
        simp [collapseWsAux, h]
      have step2 : collapseWsAux true (c :: rest) = c :: collapseWsAux false rest := by
        simp [collapseWsAux, h]
      have key : c :: collapseWsAux false rest = wsRunsReplaced (c :: rest) := by
        rw [wsRunsReplaced_cons_nonws c rest h, ih.1,
          wsRunsReplaced_nonws_step rest]
        simp
      refine ⟨step.trans key, ?_⟩
      rw [step2, key]
      simp [List.dropWhile_cons, h]
    | true =>
      have step : collapseWsAux false (c :: rest) = '_' :: collapseWsAux true rest := by
        simp [collapseWsAux, h]
      have step2 : collapseWsAux true (c :: rest) = collapseWsAux true rest := by
        simp [collapseWsAux, h]
      refine ⟨?_, ?_⟩
      · rw [step, ih.2, wsRunsReplaced_cons_ws c rest h]
      · rw [step2, ih.2]
        simp [List.dropWhile_cons, h]

/-- The sanitized key is the claim's run-replacement of the original name. -/
theorem jsReplaceWs_eq_runs (s : String) :
    jsReplaceWs s = String.mk (wsRunsReplaced s.data) :=
  congrArg String.mk (collapseWsAux_eq_wsRunsReplaced s.data).1


/-! ### URL encoding (`encodeURIComponent` / `decodeURIComponent`)

`encodeURIComponent` leaves the ECMAScript unreserved set
(alphanumerics and `- _ . ! ~ * ' ( )`) unchanged and percent-encodes the
UTF-8 bytes of every other character with uppercase hex digits.
`decodeURIComponent` is its partial inverse: it parses percent escapes,
re-assembles UTF-8 sequences and throws (here: `none`) on malformed input. -/

/-- The character class `[a-zA-Z0-9]`. -/
def regexAlnum (c : Char) : Bool :=
  (48 ≤ c.toNat && c.toNat ≤ 57) || (65 ≤ c.toNat && c.toNat ≤ 90) ||
  (97 ≤ c.toNat && c.toNat ≤ 122)

/-- Characters `encodeURIComponent` leaves unescaped. -/
def isUriUnreserved (c : Char) : Bool :=
  regexAlnum c || c.toNat = 45 || c.toNat = 95 || c.toNat = 46 ||
  c.toNat = 33 || c.toNat = 126 || c.toNat = 42 || c.toNat = 39 ||
  c.toNat = 40 || c.toNat = 41

/-- Uppercase hex digit for a nibble. -/
def hexDigit (n : Nat) : Char :=
  if n < 10 then Char.ofNat (48 + n) else Char.ofNat (55 + n)

/-- Value of a hex digit character (decoding accepts both cases). -/
def hexVal (c : Char) : Option Nat :=
  if 48 ≤ c.toNat ∧ c.toNat ≤ 57 then some (c.toNat - 48)
  else if 65 ≤ c.toNat ∧ c.toNat ≤ 70 then some (c.toNat - 55)
  else if 97 ≤ c.toNat ∧ c.toNat ≤ 102 then some (c.toNat - 87)
  else none

/-- UTF-8 byte sequence of a Unicode scalar value. -/
def utf8Bytes (c : Char) : List Nat :=
  let v := c.toNat
  if v < 0x80 then [v]
  else if v < 0x800 then [0xc0 + v / 64, 0x80 + v % 64]
  else if v < 0x10000 then [0xe0 + v / 4096, 0x80 + v / 64 % 64, 0x80 + v % 64]
  else [0xf0 + v / 262144, 0x80 + v / 4096 % 64, 0x80 + v / 64 % 64, 0x80 + v % 64]

/-- The `%XY` escape of one byte. -/
def escapeByte (b : Nat) : List Char :=
  ['%', hexDigit (b / 16), hexDigit (b % 16)]

def encodeChar (c : Char) : List Char :=
  if isUriUnreserved c then [c] else (utf8Bytes c).flatMap escapeByte

/-- Model of JS `encodeURIComponent`. -/
def encodeURIComponent (s : String) : String :=
  String.mk (s.data.flatMap encodeChar)

/-- Value of a UTF-8 continuation byte written as two hex digits:
byte `0x80 + k` with `k < 64` yields `k`; anything else is rejected. -/
def contVal (hc lc : Char) : Option Nat :=
  match hexVal hc, hexVal lc with
  | some a, some b => if 8 ≤ a ∧ a < 12 then some ((a - 8) * 16 + b) else none
  | _, _ => none

/-- One percent-escape of `decodeURIComponent`, after the leading `%` and two
further characters `h1 l1` have been read; `r1` is the remaining input. The
lead byte fixes the UTF-8 sequence length; continuation bytes are read from
further `%XY` escapes in `r1`; overlong, surrogate and out-of-range sequences
are rejected, as JS throws a `URIError` on them. Returns the decoded
character and how many characters of `r1` were consumed. -/
def decodeEscape (h1 l1 : Char) (r1 : List Char) : Option (Char × Nat) :=
  match hexVal h1, hexVal l1 with
  | some a1, some b1 =>
    if a1 < 8 then some (Char.ofNat (a1 * 16 + b1), 0)
    else if a1 < 12 then none
    else if a1 < 14 then
      match r1 with
      | '%' :: h2 :: l2 :: _ =>
        match contVal h2 l2 with
        | some c2 =>
          if 0x80 ≤ (a1 * 16 + b1 - 0xc0) * 64 + c2 then
            some (Char.ofNat ((a1 * 16 + b1 - 0xc0) * 64 + c2), 3)
          else none
        | none => none
      | _ => none
    else if a1 = 14 then
      match r1 with
      | '%' :: h2 :: l2 :: '%' :: h3 :: l3 :: _ =>
        match contVal h2 l2, contVal h3 l3 with
        | some c2, some c3 =>
          if 0x800 ≤ (a1 * 16 + b1 - 0xe0) * 4096 + c2 * 64 + c3 ∧
              ((a1 * 16 + b1 - 0xe0) * 4096 + c2 * 64 + c3 < 0xd800 ∨
                0xdfff < (a1 * 16 + b1 - 0xe0) * 4096 + c2 * 64 + c3) then
            some (Char.ofNat ((a1 * 16 + b1 - 0xe0) * 4096 + c2 * 64 + c3), 6)
          else none
        | _, _ => none
      | _ => none
    else
      match r1 with
      | '%' :: h2 :: l2 :: '%' :: h3 :: l3 :: '%' :: h4 :: l4 :: _ =>
        match contVal h2 l2, contVal h3 l3, contVal h4 l4 with
        | some c2, some c3, some c4 =>
          if 0x10000 ≤ (a1 * 16 + b1 - 0xf0) * 262144 + c2 * 4096 + c3 * 64 + c4 ∧
              (a1 * 16 + b1 - 0xf0) * 262144 + c2 * 4096 + c3 * 64 + c4 < 0x110000 then
            some (Char.ofNat ((a1 * 16 + b1 - 0xf0) * 262144 + c2 * 4096 + c3 * 64 + c4), 9)
          else none
        | _, _, _ => none
      | _ => none
  | _, _ => none

/-- Model of JS `decodeURIComponent` on the character list: literal characters
pass through; `%` must be followed by a well-formed escape sequence, which is
replaced by its decoded character; malformed input yields `none` (JS throws). -/
def jsDecode : List Char → Option (List Char)
  | [] => some []
  | c :: rest =>
    if c = '%' then
      match rest with
      | h1 :: l1 :: r1 =>
        match decodeEscape h1 l1 r1 with
        | some (ch, n) => (jsDecode (r1.drop n)).map (fun t => ch :: t)
        | none => none
      | _ => none
    else (jsDecode rest).map (fun t => c :: t)
termination_by l => l.length
decreasing_by
  · simp only [List.length_drop, List.length_cons]
    omega
  · simp only [List.length_cons]
    omega

/-- Model of JS `decodeURIComponent`. -/
def decodeURIComponent (s : String) : Option String :=
  (jsDecode s.data).map String.mk

theorem char_valid_nat (c : Char) :
    c.toNat < 0xd800 ∨ (0xdfff < c.toNat ∧ c.toNat < 0x110000) := by
  have h := c.valid
  unfold UInt32.isValidChar Nat.isValidChar at h
  exact h

theorem hexVal_hexDigit : ∀ n, n < 16 → hexVal (hexDigit n) = some n := by decide

theorem jsDecode_nil : jsDecode [] = some [] := by
  rw [jsDecode]

theorem jsDecode_cons_lit (c : Char) (L : List Char) (h : ¬c = '%') :
    jsDecode (c :: L) = (jsDecode L).map (fun t => c :: t) := by
  cases L with
  | nil => simp [jsDecode, h]
  | cons x xs =>
    cases xs with
    | nil => simp [jsDecode, h]
    | cons y ys => rw [jsDecode, if_neg h]

theorem jsDecode_pct (h1 l1 : Char) (r1 : List Char) :
    jsDecode ('%' :: h1 :: l1 :: r1) =
      match decodeEscape h1 l1 r1 with
      | some (ch, n) => (jsDecode (r1.drop n)).map (fun t => ch :: t)
      | none => none := by
  rw [jsDecode, if_pos rfl]

theorem decodeEscape_e1 (b : Nat) (hb : b < 0x80) (L : List Char) :
    decodeEscape (hexDigit (b / 16)) (hexDigit (b % 16)) L = some (Char.ofNat b, 0) := by
  have e1 : hexVal (hexDigit (b / 16)) = some (b / 16) := hexVal_hexDigit _ (by omega)
  have e2 : hexVal (hexDigit (b % 16)) = some (b % 16) := hexVal_hexDigit _ (by omega)
  have hre : b / 16 * 16 + b % 16 = b := by omega
  simp only [decodeEscape, e1, e2, hre]
  rw [if_pos (by omega : b / 16 < 8)]

theorem contVal_escape (k : Nat) (hk : k < 64) :
    contVal (hexDigit ((0x80 + k) / 16)) (hexDigit ((0x80 + k) % 16)) = some k := by
  have e1 : hexVal (hexDigit ((0x80 + k) / 16)) = some ((0x80 + k) / 16) :=
    hexVal_hexDigit _ (by omega)
  have e2 : hexVal (hexDigit ((0x80 + k) % 16)) = some ((0x80 + k) % 16) :=
    hexVal_hexDigit _ (by omega)
  have hre : ((0x80 + k) / 16 - 8) * 16 + (0x80 + k) % 16 = k := by omega
  simp only [contVal, e1, e2, hre]
  rw [if_pos (by omega : 8 ≤ (0x80 + k) / 16 ∧ (0x80 + k) / 16 < 12)]

theorem decodeEscape_e2 (v : Nat) (hv1 : 0x80 ≤ v) (hv2 : v < 0x800) (L : List Char) :
    decodeEscape (hexDigit ((0xc0 + v / 64) / 16)) (hexDigit ((0xc0 + v / 64) % 16))
      (escapeByte (0x80 + v % 64) ++ L) = some (Char.ofNat v, 3) := by
  have e1 : hexVal (hexDigit ((0xc0 + v / 64) / 16)) = some ((0xc0 + v / 64) / 16) :=
    hexVal_hexDigit _ (by omega)
  have e2 : hexVal (hexDigit ((0xc0 + v / 64) % 16)) = some ((0xc0 + v / 64) % 16) :=
    hexVal_hexDigit _ (by omega)
  have hc : contVal (hexDigit ((0x80 + v % 64) / 16)) (hexDigit ((0x80 + v % 64) % 16)) =
      some (v % 64) := contVal_escape _ (by omega)
  have hre : ((0xc0 + v / 64) / 16 * 16 + (0xc0 + v / 64) % 16 - 0xc0) * 64 + v % 64 = v := by
    omega
  simp only [decodeEscape, e1, e2, escapeByte, List.cons_append, List.nil_append, hc, hre]
  rw [if_neg (by omega : ¬(0xc0 + v / 64) / 16 < 8),
    if_neg (by omega : ¬(0xc0 + v / 64) / 16 < 12),
    if_pos (by omega : (0xc0 + v / 64) / 16 < 14),
    if_pos (by omega : 0x80 ≤ v)]

theorem decodeEscape_e3 (v : Nat) (hv1 : 0x800 ≤ v) (hv2 : v < 0x10000)
    (hv3 : v < 0xd800 ∨ 0xdfff < v) (L : List Char) :
    decodeEscape (hexDigit ((0xe0 + v / 4096) / 16)) (hexDigit ((0xe0 + v / 4096) % 16))
      (escapeByte (0x80 + v / 64 % 64) ++ (escapeByte (0x80 + v % 64) ++ L)) =
      some (Char.ofNat v, 6) := by
  have e1 : hexVal (hexDigit ((0xe0 + v / 4096) / 16)) = some ((0xe0 + v / 4096) / 16) :=
    hexVal_hexDigit _ (by omega)
  have e2 : hexVal (hexDigit ((0xe0 + v / 4096) % 16)) = some ((0xe0 + v / 4096) % 16) :=
    hexVal_hexDigit _ (by omega)
  have hc2 : contVal (hexDigit ((0x80 + v / 64 % 64) / 16))
      (hexDigit ((0x80 + v / 64 % 64) % 16)) = some (v / 64 % 64) :=
    contVal_escape _ (by omega)
  have hc3 : contVal (hexDigit ((0x80 + v % 64) / 16)) (hexDigit ((0x80 + v % 64) % 16)) =
      some (v % 64) := contVal_escape _ (by omega)
  have hre : ((0xe0 + v / 4096) / 16 * 16 + (0xe0 + v / 4096) % 16 - 0xe0) * 4096 +
      v / 64 % 64 * 64 + v % 64 = v := by omega
  simp only [decodeEscape, e1, e2, escapeByte, List.cons_append, List.nil_append, hc2, hc3, hre]
  rw [if_neg (by omega : ¬(0xe0 + v / 4096) / 16 < 8),
    if_neg (by omega : ¬(0xe0 + v / 4096) / 16 < 12),
    if_neg (by omega : ¬(0xe0 + v / 4096) / 16 < 14),
    if_pos (by omega : (0xe0 + v / 4096) / 16 = 14),
    if_pos (by exact ⟨by omega, hv3⟩ : 0x800 ≤ v ∧ (v < 0xd800 ∨ 0xdfff < v))]

theorem decodeEscape_e4 (v : Nat) (hv1 : 0x10000 ≤ v) (hv2 : v < 0x110000) (L : List Char) :
    decodeEscape (hexDigit ((0xf0 + v / 262144) / 16)) (hexDigit ((0xf0 + v / 262144) % 16))
      (escapeByte (0x80 + v / 4096 % 64) ++
        (escapeByte (0x80 + v / 64 % 64) ++ (escapeByte (0x80 + v % 64) ++ L))) =
      some (Char.ofNat v, 9) := by
  have e1 : hexVal (hexDigit ((0xf0 + v / 262144) / 16)) = some ((0xf0 + v / 262144) / 16) :=
    hexVal_hexDigit _ (by omega)
  have e2 : hexVal (hexDigit ((0xf0 + v / 262144) % 16)) = some ((0xf0 + v / 262144) % 16) :=
    hexVal_hexDigit _ (by omega)
  have hc2 : contVal (hexDigit ((0x80 + v / 4096 % 64) / 16))
      (hexDigit ((0x80 + v / 4096 % 64) % 16)) = some (v / 4096 % 64) :=
    contVal_escape _ (by omega)
  have hc3 : contVal (hexDigit ((0x80 + v / 64 % 64) / 16))
      (hexDigit ((0x80 + v / 64 % 64) % 16)) = some (v / 64 % 64) :=
    contVal_escape _ (by omega)
  have hc4 : contVal (hexDigit ((0x80 + v % 64) / 16)) (hexDigit ((0x80 + v % 64) % 16)) =
      some (v % 64) := contVal_escape _ (by omega)
  have hre : ((0xf0 + v / 262144) / 16 * 16 + (0xf0 + v / 262144) % 16 - 0xf0) * 262144 +
      v / 4096 % 64 * 4096 + v / 64 % 64 * 64 + v % 64 = v := by omega
  simp only [decodeEscape, e1, e2, escapeByte, List.cons_append, List.nil_append, hc2, hc3, hc4, hre]
  rw [if_neg (by omega : ¬(0xf0 + v / 262144) / 16 < 8),
    if_neg (by omega : ¬(0xf0 + v / 262144) / 16 < 12),
    if_neg (by omega : ¬(0xf0 + v / 262144) / 16 < 14),
    if_neg (by omega : ¬(0xf0 + v / 262144) / 16 = 14),
    if_pos (by omega : 0x10000 ≤ v ∧ v < 0x110000)]

theorem jsDecode_escape1 (b : Nat) (hb : b < 0x80) (L : List Char) :
    jsDecode (escapeByte b ++ L) = (jsDecode L).map (fun t => Char.ofNat b :: t) := by
  simp only [escapeByte, List.cons_append, List.nil_append]
  rw [jsDecode_pct, decodeEscape_e1 b hb]
  rfl

theorem jsDecode_escape2 (v : Nat) (hv1 : 0x80 ≤ v) (hv2 : v < 0x800) (L : List Char) :
    jsDecode (escapeByte (0xc0 + v / 64) ++ (escapeByte (0x80 + v % 64) ++ L)) =
      (jsDecode L).map (fun t => Char.ofNat v :: t) := by
  show jsDecode ('%' :: hexDigit ((0xc0 + v / 64) / 16) :: hexDigit ((0xc0 + v / 64) % 16) ::
    (escapeByte (0x80 + v % 64) ++ L)) = _
  rw [jsDecode_pct, decodeEscape_e2 v hv1 hv2]
  simp [escapeByte]

theorem jsDecode_escape3 (v : Nat) (hv1 : 0x800 ≤ v) (hv2 : v < 0x10000)
    (hv3 : v < 0xd800 ∨ 0xdfff < v) (L : List Char) :
    jsDecode (escapeByte (0xe0 + v / 4096) ++
      (escapeByte (0x80 + v / 64 % 64) ++ (escapeByte (0x80 + v % 64) ++ L))) =
      (jsDecode L).map (fun t => Char.ofNat v :: t) := by
  show jsDecode ('%' :: hexDigit ((0xe0 + v / 4096) / 16) :: hexDigit ((0xe0 + v / 4096) % 16) ::
    (escapeByte (0x80 + v / 64 % 64) ++ (escapeByte (0x80 + v % 64) ++ L))) = _
  rw [jsDecode_pct, decodeEscape_e3 v hv1 hv2 hv3]
  simp [escapeByte]

theorem jsDecode_escape4 (v : Nat) (hv1 : 0x10000 ≤ v) (hv2 : v < 0x110000) (L : List Char) :
    jsDecode (escapeByte (0xf0 + v / 262144) ++
      (escapeByte (0x80 + v / 4096 % 64) ++
        (escapeByte (0x80 + v / 64 % 64) ++ (escapeByte (0x80 + v % 64) ++ L)))) =
      (jsDecode L).map (fun t => Char.ofNat v :: t) := by
  show jsDecode ('%' :: hexDigit ((0xf0 + v / 262144) / 16) ::
    hexDigit ((0xf0 + v / 262144) % 16) ::
    (escapeByte (0x80 + v / 4096 % 64) ++
      (escapeByte (0x80 + v / 64 % 64) ++ (escapeByte (0x80 + v % 64) ++ L)))) = _
  rw [jsDecode_pct, decodeEscape_e4 v hv1 hv2]
  simp [escapeByte]

theorem jsDecode_encodeChar (c : Char) (L : List Char) :
    jsDecode (encodeChar c ++ L) = (jsDecode L).map (fun t => c :: t) := by
  by_cases h : isUriUnreserved c
  · have hpc : ¬c = '%' := by
      intro e
      rw [e] at h
      exact absurd h (by decide)
    simp only [encodeChar, if_pos h, List.cons_append, List.nil_append]
    exact jsDecode_cons_lit c L hpc
  · have hv := char_valid_nat c
    simp only [encodeChar, if_neg h]
    by_cases h1 : c.toNat < 0x80
    · have hu : utf8Bytes c = [c.toNat] := by
        simp [utf8Bytes, h1]
      rw [hu]
      simp only [List.flatMap_cons, List.flatMap_nil, List.append_nil]
      rw [jsDecode_escape1 _ h1, Char.ofNat_toNat]
    · by_cases h2 : c.toNat < 0x800
      · have hu : utf8Bytes c = [0xc0 + c.toNat / 64, 0x80 + c.toNat % 64] := by
          simp [utf8Bytes, h1, h2]
        rw [hu]
        simp only [List.flatMap_cons, List.flatMap_nil, List.append_nil, List.append_assoc]
        rw [jsDecode_escape2 _ (by omega) h2, Char.ofNat_toNat]
      · by_cases h3 : c.toNat < 0x10000
        · have hu : utf8Bytes c =
              [0xe0 + c.toNat / 4096, 0x80 + c.toNat / 64 % 64, 0x80 + c.toNat % 64] := by
            simp [utf8Bytes, h1, h2, h3]
          rw [hu]
          simp only [List.flatMap_cons, List.flatMap_nil, List.append_nil, List.append_assoc]
          rw [jsDecode_escape3 _ (by omega) h3 (by omega), Char.ofNat_toNat]
        · have hu : utf8Bytes c = [0xf0 + c.toNat / 262144, 0x80 + c.toNat / 4096 % 64,
              0x80 + c.toNat / 64 % 64, 0x80 + c.toNat % 64] := by
            simp [utf8Bytes, h1, h2, h3]
          rw [hu]
          simp only [List.flatMap_cons, List.flatMap_nil, List.append_nil, List.append_assoc]
          rw [jsDecode_escape4 _ (by omega) (by omega), Char.ofNat_toNat]

theorem jsDecode_flatMap_encode (l : List Char) :
    jsDecode (l.flatMap encodeChar) = some l := by
  induction l with
  | nil => exact jsDecode_nil
  | cons c cs ih =>
    rw [List.flatMap_cons, jsDecode_encodeChar, ih]
    rfl

/-- Round trip: `decodeURIComponent` recovers every string from its `encodeURIComponent`. -/
theorem decodeURIComponent_encodeURIComponent (s : String) :
    decodeURIComponent (encodeURIComponent s) = some s := by
  show (jsDecode (s.data.flatMap encodeChar)).map String.mk = some s
  rw [jsDecode_flatMap_encode]
  cases s
  rfl

/-! ### Further string helpers used by the upload route -/

/-- Characters `encodeURIComponent` escapes never include `/`. -/
theorem hexDigit_ne_slash : ∀ n, n < 16 → ¬hexDigit n = '/' := by decide

theorem utf8Bytes_lt_256 (c : Char) : ∀ b ∈ utf8Bytes c, b < 256 := by
  intro b hb
  have hv := char_valid_nat c
  by_cases h1 : c.toNat < 0x80
  · simp [utf8Bytes, h1] at hb
    omega
  · by_cases h2 : c.toNat < 0x800
    · simp [utf8Bytes, h1, h2] at hb
      rcases hb with h | h <;> omega
    · by_cases h3 : c.toNat < 0x10000
      · simp [utf8Bytes, h1, h2, h3] at hb
        rcases hb with h | h | h <;> omega
      · simp [utf8Bytes, h1, h2, h3] at hb
        rcases hb with h | h | h | h <;> omega

theorem encodeChar_ne_slash (c : Char) : ∀ x ∈ encodeChar c, ¬x = '/' := by
  intro x hx
  by_cases h : isUriUnreserved c
  · simp [encodeChar, h] at hx
    subst hx
    intro e
    rw [e] at h
    exact absurd h (by decide)
  · simp only [encodeChar, if_neg h, List.mem_flatMap] at hx
    obtain ⟨b, hb, hxb⟩ := hx
    have hb256 := utf8Bytes_lt_256 c b hb
    simp [escapeByte] at hxb
    rcases hxb with h | h | h
    · subst h; decide
    · subst h; exact hexDigit_ne_slash _ (by omega)
    · subst h; exact hexDigit_ne_slash _ (by omega)

theorem encodeURIComponent_data_ne_slash (s : String) :
    ∀ x ∈ (encodeURIComponent s).data, ¬x = '/' := by
  intro x hx
  simp only [encodeURIComponent, List.mem_flatMap] at hx
  obtain ⟨c, _, hxc⟩ := hx
  exact encodeChar_ne_slash c x hxc

/-- On strings made only of unreserved characters, `encodeURIComponent` is the
identity. -/
theorem encodeURIComponent_of_unreserved (s : String)
    (h : s.data.all isUriUnreserved = true) : encodeURIComponent s = s := by
  have key : ∀ l : List Char, l.all isUriUnreserved = true → l.flatMap encodeChar = l := by
    intro l hl
    induction l with
    | nil => rfl
    | cons c cs ih =>
      simp only [List.all_cons, Bool.and_eq_true] at hl
      rw [List.flatMap_cons, ih hl.2]
      simp [encodeChar, hl.1]
  show String.mk (s.data.flatMap encodeChar) = s
  rw [key s.data h]

/-- JS `str.split(sep)` for a one-character separator. -/
def jsSplit (sep : Char) : List Char → List (List Char)
  | [] => [[]]
  | c :: rest =>
    if c = sep then [] :: jsSplit sep rest
    else
      match jsSplit sep rest with
      | [] => [[c]]
      | s :: ss => (c :: s) :: ss

/-- JS array indexing `arr[i]` stringified into a template literal: a missing
element is `undefined`, which interpolates as the string `"undefined"`. -/
def jsIndex (l : List (List Char)) (i : Nat) : String :=
  match l[i]? with
  | some cs => String.mk cs
  | none => "undefined"

/-- JS `url.split("/").pop()` (delete route, line 257): the last
`/`-separated segment. -/
def jsSplitPop (s : String) : String :=
  String.mk ((jsSplit '/' s.data).getLastD [])

theorem jsSplit_cons_sep (sep : Char) (rest : List Char) :
    jsSplit sep (sep :: rest) = [] :: jsSplit sep rest := by
  simp [jsSplit]

theorem jsSplit_ne_nil (sep : Char) (l : List Char) : ¬jsSplit sep l = [] := by
  cases l with
  | nil => simp [jsSplit]
  | cons c rest =>
    by_cases h : c = sep
    · simp [jsSplit, h]
    · simp only [jsSplit, if_neg h]
      cases jsSplit sep rest <;> simp

theorem getLastD_irrel {α : Type} (xs : List α) (h : ¬xs = []) (d1 d2 : α) :
    xs.getLastD d1 = xs.getLastD d2 := by
  cases xs with
  | nil => exact absurd rfl h
  | cons y ys => rw [List.getLastD_cons, List.getLastD_cons]

theorem jsSplit_append_slash_len (a b : List Char) :
    2 ≤ (jsSplit '/' (a ++ '/' :: b)).length := by
  induction a with
  | nil =>
    rw [List.nil_append, jsSplit_cons_sep]
    have := jsSplit_ne_nil '/' b
    cases hb : jsSplit '/' b with
    | nil => exact absurd hb this
    | cons s ss => simp [hb]
  | cons c a' ih =>
    by_cases h : c = '/'
    · subst h
      rw [List.cons_append, jsSplit_cons_sep]
      have := jsSplit_ne_nil '/' (a' ++ '/' :: b)
      cases hb : jsSplit '/' (a' ++ '/' :: b) with
      | nil => exact absurd hb this
      | cons s ss => simp [hb]
    · simp only [List.cons_append, jsSplit, if_neg h]
      cases hb : jsSplit '/' (a' ++ '/' :: b) with
      | nil => exact absurd hb (jsSplit_ne_nil '/' _)
      | cons s ss =>
        rw [hb] at ih
        simpa using ih

theorem jsSplit_pop_append_slash (a b : List Char) :
    (jsSplit '/' (a ++ '/' :: b)).getLastD [] = (jsSplit '/' b).getLastD [] := by
  induction a with
  | nil =>
    rw [List.nil_append, jsSplit_cons_sep, List.getLastD_cons]
  | cons c a' ih =>
    by_cases h : c = '/'
    · subst h
      rw [List.cons_append, jsSplit_cons_sep, List.getLastD_cons]
      exact ih
    · simp only [List.cons_append, jsSplit, if_neg h]
      cases hb : jsSplit '/' (a' ++ '/' :: b) with
      | nil => exact absurd hb (jsSplit_ne_nil '/' _)
      | cons s ss =>
        have hss : ¬ss = [] := by
          have hlen := jsSplit_append_slash_len a' b
          rw [hb] at hlen
          cases ss with
          | nil => simp at hlen
          | cons t ts => simp
        rw [List.getLastD_cons]
        rw [getLastD_irrel ss hss (c :: s) s]
        rw [hb] at ih
        rw [List.getLastD_cons] at ih
        exact ih

theorem jsSplit_no_sep (sep : Char) (l : List Char) (h : ∀ x ∈ l, ¬x = sep) :
    jsSplit sep l = [l] := by
  induction l with
  | nil => rfl
  | cons c rest ih =>
    have hc : ¬c = sep := h c (by simp)
    have hr : jsSplit sep rest = [rest] := ih (fun x hx => h x (by simp [hx]))
    simp [jsSplit, hc, hr]

/-! ### Data model and per-request environment

`File` documents (index.js lines 85-93) become `FileRecord`. The audio
metadata returned by `musicMetadata.parseBuffer` is `CommonMeta` (only the
fields the route reads); a parse failure is `Except.error`. Each uploaded
file carries, besides its multipart data, the per-call environment the route
consumes: the clock and `Math.random()` draw used by `getFormattedDate`, the
`Date.now` default of the Mongo insert, and outcome flags for the fallible
S3/Mongo calls. -/

structure Picture where
  format : Option String
  bytes : List Nat
deriving Repr, DecidableEq

structure CommonMeta where
  year : Option Nat
  language : Option String
  picture : List Picture
deriving Repr, DecidableEq

structure JsDate where
  fullYear : Nat
  month0 : Nat
  date : Nat
deriving Repr, DecidableEq

structure UploadedFile where
  originalname : String
  mimetype : String
  buffer : List Nat
  parsed : Except Unit CommonMeta
  now : JsDate
  rand : ℚ
  coverPutOk : Bool
  filePutOk : Bool
  dbOk : Bool
  dbNow : Nat
deriving Repr

structure FileRecord where
  filename : String
  viewUrl : String
  downloadUrl : String
  coverImageUrl : Option String
  key : String
  uploadedAt : Nat
deriving Repr, DecidableEq

/-- S3 side effects issued by the routes. -/
inductive S3Op where
  | put (key contentType disposition : String)
  | delete (key : String)
deriving Repr, DecidableEq

/-- MongoDB side effects issued by the routes. -/
inductive DbOp where
  | insert (record : FileRecord)
  | deleteRec (id : String)
deriving Repr, DecidableEq

/-- HTTP responses, as far as the routes distinguish them. -/
inductive HttpResponse where
  | ok (message : String) (files : List FileRecord)
  | msg (message : String)
  | redirect (url : String)
  | jsonList (files : List FileRecord)
  | err (status : Nat) (error : String)
deriving Repr, DecidableEq

/-- A `GetObjectCommand` handed to `getSignedUrl` (download route). -/
structure SignRequest where
  key : String
  responseContentDisposition : String
  expiresIn : Nat
deriving Repr, DecidableEq

/-! ### The upload route's derived names (index.js lines 43-52, 102-129) -/

/-- JS `x || y` on an optional number: `0` (and absence) is falsy. -/
def jsOrNat (x : Option Nat) : Option Nat :=
  match x with
  | some n => if n = 0 then none else some n
  | none => none

/-- JS `x || y` on an optional string: the empty string (and absence) is
falsy. -/
def jsOrStr (x : Option String) (dflt : String) : String :=
  match x with
  | some s => if s = "" then dflt else s
  | none => dflt

/-- Template interpolation of `year ? year : null`: a number prints in
decimal, `null` prints as `"null"`. -/
def yearToStr : Option Nat → String
  | some n => toString n
  | none => "null"

/-- JS `String(n).padStart(2, "0")` for a decimal-printed `Nat` (whose string is
never empty). -/
def pad2 (n : Nat) : String :=
  if (toString n).length < 2 then "0" ++ toString n else toString n

/-- JS `Math.floor(100000 + Math.random() * 900000)` (line 49), with the
`Math.random()` draw `r` passed in. The floor is computed on the reduced
numerator/denominator representation so that it evaluates inside the kernel;
`randomSixDigits_eq_floor` below checks it is the mathematical floor. -/
def randomSixDigits (r : ℚ) : Nat :=
  ((100000 * (r.den : ℤ) + r.num * 900000) / (r.den : ℤ)).toNat

/-- The source's `getFormattedDate` (lines 43-52): the year, the zero-padded
1-based month, the zero-padded day and the random suffix, interpolated in
that order. -/
def getFormattedDate (now : JsDate) (r : ℚ) : String :=
  toString now.fullYear ++ pad2 (now.month0 + 1) ++ pad2 now.date ++
    toString (randomSixDigits r)

/-- Embedding of `originalname.replace(/\s+/g, "_").replace(/\.[a-zA-Z0-9]+$/, "")` minus
the first replace: strip a trailing `.` + alphanumeric-run extension, if
present. -/
def stripDotExt (s : String) : String :=
  match s.data.reverse.dropWhile regexAlnum with
  | '.' :: before =>
    if (s.data.reverse.takeWhile regexAlnum).isEmpty then s
    else String.mk before.reverse
  | _ => s

/-- The cover-image storage key (lines 109-129): base name, language,
year-or-null, date stamp plus random suffix, and the extension taken from the
picture's MIME type (`imageMimeType.split("/")[1]`). -/
def mkCoverImageKey (originalname : String) (metadata : CommonMeta) (pic : Picture)
    (now : JsDate) (r : ℚ) : String :=
  let fileBaseName := stripDotExt (jsReplaceWs originalname)
  let year := jsOrNat metadata.year
  let language := jsOrStr metadata.language "English"
  let imageMimeType := jsOrStr pic.format "image/jpg"
  let imageExt := jsIndex (jsSplit '/' imageMimeType.data) 1
  fileBaseName ++ "-" ++ language ++ "-" ++ yearToStr (jsOrNat year) ++ "-" ++
    getFormattedDate now r ++ "." ++ imageExt

/-- MIME type the cover image is stored under. -/
def coverMime (pic : Picture) : String :=
  jsOrStr pic.format "image/jpg"

/-- JS `str.startsWith(pre)` (kernel-computable form). -/
def strStartsWith (s pre : String) : Bool :=
  pre.data.isPrefixOf s.data

/-- The cover-image stage of the upload route (lines 106-142): only audio
files are inspected; a metadata-parse exception aborts the file; a present
picture is uploaded under `mkCoverImageKey` (an S3 failure also aborts).
Returns the cover key and MIME type if a cover was stored. -/
def coverStage (f : UploadedFile) : Except Unit (Option (String × String)) :=
  if strStartsWith f.mimetype "audio/" then
    match f.parsed with
    | .error e => .error e
    | .ok metadata =>
      match metadata.picture.head? with
      | some pic =>
        if f.coverPutOk then
          .ok (some (mkCoverImageKey f.originalname metadata pic f.now f.rand,
            coverMime pic))
        else .error ()
      | none => .ok none
  else .ok none

/-- Per-file work of the upload route (lines 102-172): sanitize the name into
`fileKey`, run the cover stage, upload the primary object, build the URLs and
insert the Mongo record. Returns the S3 puts and Mongo inserts that
succeeded, and the created record or the error that aborted the file. -/
def processFile (baseUrl : String) (f : UploadedFile) :
    List S3Op × List DbOp × Except Unit FileRecord :=
  let fileKey := jsReplaceWs f.originalname
  match coverStage f with
  | .error e => ([], [], .error e)
  | .ok info =>
    let coverOps : List S3Op :=
      match info with
      | some (ck, mime) => [.put ck mime ("inline; filename=\"" ++ ck ++ "\"")]
      | none => []
    if f.filePutOk then
      let ops := coverOps ++ [.put fileKey f.mimetype
        ("inline; filename=\"" ++ fileKey ++ "\"")]
      let viewUrl := baseUrl ++ "/view/" ++ encodeURIComponent fileKey
      let downloadUrl := baseUrl ++ "/download/" ++ encodeURIComponent fileKey
      let coverImageUrl := info.map
        (fun p => baseUrl ++ "/viewCoverImage/" ++ encodeURIComponent p.1)
      if f.dbOk then
        let newFile : FileRecord :=
          ⟨fileKey, viewUrl, downloadUrl, coverImageUrl, fileKey, f.dbNow⟩
        (ops, [.insert newFile], .ok newFile)
      else (ops, [], .error ())
    else (coverOps, [], .error ())

/-- Semantics of `Promise.all`: the batch's records if every file succeeded, otherwise the
first error wins and no per-file outcome survives. -/
def collectRecords :
    List (List S3Op × List DbOp × Except Unit FileRecord) → Option (List FileRecord)
  | [] => some []
  | (_, _, .ok r) :: rest => (collectRecords rest).map (fun t => r :: t)
  | (_, _, .error _) :: _ => none

/-- Route `POST /upload` (lines 96-181): reject an absent or empty batch with 400;
otherwise process every file (their side effects all run regardless of
sibling failures), answering 200 with the records, or a generic 500 if any
file failed. -/
def uploadHandler (baseUrl : String) (files : Option (List UploadedFile)) :
    HttpResponse × List S3Op × List DbOp :=
  match files with
  | none => (.err 400 "No files uploaded", [], [])
  | some [] => (.err 400 "No files uploaded", [], [])
  | some fs =>
    let results := fs.map (processFile baseUrl)
    let s3ops := (results.map (fun r => r.1)).flatten
    let dbops := (results.map (fun r => r.2.1)).flatten
    match collectRecords results with
    | some recs => (.ok "Files uploaded successfully!" recs, s3ops, dbops)
    | none => (.err 500 "File upload failed", s3ops, dbops)

/-- Lookup by id, as `File.findById`. -/
def findById (db : List (String × FileRecord)) (id : String) : Option FileRecord :=
  match db with
  | [] => none
  | (i, r) :: rest => if i = id then some r else findById rest id

/-- Route `DELETE /files/:id` (lines 243-274): 404 if the record does not exist;
otherwise delete the primary object under `record.key`, then, if a
`coverImageUrl` is (JS-truthily) present, delete the object named by its last
path segment, then delete the Mongo record. -/
def deleteHandler (db : List (String × FileRecord)) (id : String) :
    HttpResponse × List S3Op × List DbOp :=
  match findById db id with
  | none => (.err 404 "File not found", [], [])
  | some file =>
    let coverOps : List S3Op :=
      match file.coverImageUrl with
      | some u => if u = "" then [] else [.delete (jsSplitPop u)]
      | none => []
    (.msg "File deleted successfully", .delete file.key :: coverOps, [.deleteRec id])

/-- Route `GET /download/:key` (lines 221-240): decode the key parameter, request a
signed URL for a `GetObjectCommand` with attachment disposition naming the
key and 60-second expiry, and redirect to it; `signedUrl` is the S3 signing
oracle. A decode failure throws into the catch-all 500. -/
def downloadHandler (keyParam : String) (signedUrl : SignRequest → String) :
    Option SignRequest × HttpResponse :=
  match jsDecode keyParam.data with
  | none => (none, .err 500 "Failed to generate download link")
  | some fk =>
    let fileKey := String.mk fk
    let command : SignRequest :=
      ⟨fileKey, "attachment; filename=\"" ++ fileKey ++ "\"", 60⟩
    (some command, .redirect (signedUrl command))

/-- Sort key of `File.find().sort({ uploadedAt: -1 })`: newest first. -/
def uploadedAtDesc (a b : FileRecord) : Prop :=
  b.uploadedAt ≤ a.uploadedAt

instance : DecidableRel uploadedAtDesc :=
  fun a b => inferInstanceAs (Decidable (b.uploadedAt ≤ a.uploadedAt))

instance : IsTotal FileRecord uploadedAtDesc :=
  ⟨fun a b => Nat.le_total b.uploadedAt a.uploadedAt⟩

instance : IsTrans FileRecord uploadedAtDesc :=
  ⟨fun _ _ _ hab hbc => Nat.le_trans hbc hab⟩

/-- Route `GET /files` (lines 184-192): every record, sorted by `uploadedAt`
descending (modelled by a sort of the record list). -/
def getFilesHandler (db : List FileRecord) : HttpResponse :=
  .jsonList (List.insertionSort uploadedAtDesc db)

theorem randomSixDigits_eq_floor (r : ℚ) :
    randomSixDigits r = (⌊(100000 : ℚ) + r * 900000⌋).toNat := by
  have hden : ((r.den : ℚ)) ≠ 0 := by
    exact_mod_cast r.den_nz
  have hnum : (r.num : ℚ) = r * (r.den : ℚ) :=
    (div_eq_iff hden).mp (Rat.num_div_den r)
  have hq : (100000 : ℚ) + r * 900000 =
      ((100000 * (r.den : ℤ) + r.num * 900000 : ℤ) : ℚ) / ((r.den : ℕ) : ℚ) := by
    rw [eq_div_iff hden]
    push_cast [hnum]
    ring
  rw [hq, Rat.floor_intCast_div_natCast]
  rfl

/-- With `Math.random()` in `[0, 1)`, the suffix is always a six-digit
number. -/
theorem randomSixDigits_bounds (r : ℚ) (h0 : 0 ≤ r) (h1 : r < 1) :
    100000 ≤ randomSixDigits r ∧ randomSixDigits r ≤ 999999 := by
  rw [randomSixDigits_eq_floor]
  have hlo : (100000 : ℤ) ≤ ⌊(100000 : ℚ) + r * 900000⌋ := by
    rw [Int.le_floor]
    push_cast
    nlinarith
  have hhi : ⌊(100000 : ℚ) + r * 900000⌋ < 1000000 := by
    rw [Int.floor_lt]
    push_cast
    nlinarith
  omega

instance {α : Type} [DecidableEq α] : DecidableEq (Except Unit α) := fun a b =>
  match a, b with
  | .error e1, .error e2 => isTrue (by cases e1; cases e2; rfl)
  | .error _, .ok _ => isFalse (fun h => Except.noConfusion h)
  | .ok _, .error _ => isFalse (fun h => Except.noConfusion h)
  | .ok r1, .ok r2 =>
    if h : r1 = r2 then isTrue (by rw [h]) else isFalse (fun hh => h (Except.ok.inj hh))

/-- The cover info the upload stored, if any. -/
def coverInfoOf (f : UploadedFile) : Option (String × String) :=
  match coverStage f with
  | .ok info => info
  | .error _ => none

theorem processFile_ok_fields (baseUrl : String) (f : UploadedFile) (rec : FileRecord)
    (hok : (processFile baseUrl f).2.2 = Except.ok rec) :
    rec.key = jsReplaceWs f.originalname ∧
    rec.filename = jsReplaceWs f.originalname ∧
    rec.coverImageUrl = (coverInfoOf f).map
      (fun p => baseUrl ++ "/viewCoverImage/" ++ encodeURIComponent p.1) ∧
    (processFile baseUrl f).2.1 = [DbOp.insert rec] ∧
    rec.viewUrl = baseUrl ++ "/view/" ++ encodeURIComponent (jsReplaceWs f.originalname) ∧
    rec.downloadUrl = baseUrl ++ "/download/" ++ encodeURIComponent (jsReplaceWs f.originalname) := by
  cases hcs : coverStage f with
  | error e =>
    simp [processFile, hcs] at hok
  | ok info =>
    by_cases hfp : f.filePutOk = true
    · by_cases hdb : f.dbOk = true
      · simp only [processFile, hcs, hfp, hdb, if_true] at hok
        rw [Except.ok.injEq] at hok
        subst hok
        refine ⟨rfl, rfl, ?_, ?_, rfl, rfl⟩
        · simp [coverInfoOf, hcs]
        · simp [processFile, hcs, hfp, hdb]
      · simp [processFile, hcs, hfp, hdb] at hok
    · simp [processFile, hcs, hfp] at hok

/-! ### Claims -/

/-- C1: for every accepted file the upload route processes successfully, the
`key` (and `filename`) stored in the created FileRecord — the same record
returned to the caller and inserted into the database — is the original
filename with every maximal run of whitespace replaced by a single `_` and
nothing else changed (`wsRunsReplaced` is that specification, and the record
is built from the source's `replace(/\s+/g, "_")`). -/
theorem c1_sanitized_key (baseUrl : String) (f : UploadedFile) (rec : FileRecord)
    (hok : (processFile baseUrl f).2.2 = Except.ok rec) :
    rec.key = String.mk (wsRunsReplaced f.originalname.data) ∧
    rec.filename = rec.key ∧
    (processFile baseUrl f).2.1 = [DbOp.insert rec] := by
  obtain ⟨hkey, hfn, _, hdb, _, _⟩ := processFile_ok_fields baseUrl f rec hok
  refine ⟨?_, ?_, hdb⟩
  · rw [hkey, jsReplaceWs_eq_runs]
  · rw [hfn, hkey]

def c1File : UploadedFile :=
  ⟨"My Song.mp3", "audio/mpeg", [], .ok ⟨none, none, []⟩,
    ⟨2025, 0, 1⟩, 0, true, true, true, 0⟩

def c1Rec : FileRecord :=
  ⟨"My_Song.mp3", "http://localhost:4000/view/My_Song.mp3",
    "http://localhost:4000/download/My_Song.mp3", none, "My_Song.mp3", 0⟩

theorem c1_sanitized_key_witness :
    (processFile "http://localhost:4000" c1File).2.2 = Except.ok c1Rec ∧
    (c1Rec.key = String.mk (wsRunsReplaced c1File.originalname.data) ∧
      c1Rec.filename = c1Rec.key ∧
      (processFile "http://localhost:4000" c1File).2.1 = [DbOp.insert c1Rec]) :=
  ⟨by decide, c1_sanitized_key "http://localhost:4000" c1File c1Rec (by decide)⟩

/-- C3: for every created FileRecord, `viewUrl` and `downloadUrl` are the
deterministic functions `base ++ "/view/" ++ encodeURIComponent key` and
`base ++ "/download/" ++ encodeURIComponent key` of the key and configured
base path, and the construction round-trips: URL-decoding the encoded key
segment recovers exactly the original key, for every possible key string. -/
theorem c3_urls_roundtrip (baseUrl : String) (f : UploadedFile) (rec : FileRecord)
    (hok : (processFile baseUrl f).2.2 = Except.ok rec) :
    rec.viewUrl = baseUrl ++ "/view/" ++ encodeURIComponent rec.key ∧
    rec.downloadUrl = baseUrl ++ "/download/" ++ encodeURIComponent rec.key ∧
    decodeURIComponent (encodeURIComponent rec.key) = some rec.key ∧
    (∀ k : String, decodeURIComponent (encodeURIComponent k) = some k) := by
  obtain ⟨hkey, _, _, _, hview, hdl⟩ := processFile_ok_fields baseUrl f rec hok
  refine ⟨?_, ?_, decodeURIComponent_encodeURIComponent rec.key,
    fun k => decodeURIComponent_encodeURIComponent k⟩
  · rw [hview, hkey]
  · rw [hdl, hkey]

def c3File : UploadedFile :=
  ⟨"Tom & Jerry #1.mp3", "audio/mpeg", [], .ok ⟨none, none, []⟩,
    ⟨2025, 0, 1⟩, 0, true, true, true, 0⟩

def c3Rec : FileRecord :=
  ⟨"Tom_&_Jerry_#1.mp3", "http://localhost:4000/view/Tom_%26_Jerry_%231.mp3",
    "http://localhost:4000/download/Tom_%26_Jerry_%231.mp3", none,
    "Tom_&_Jerry_#1.mp3", 0⟩

theorem c3_urls_roundtrip_witness :
    (processFile "http://localhost:4000" c3File).2.2 = Except.ok c3Rec ∧
    (c3Rec.viewUrl = "http://localhost:4000" ++ "/view/" ++ encodeURIComponent c3Rec.key ∧
      c3Rec.downloadUrl =
        "http://localhost:4000" ++ "/download/" ++ encodeURIComponent c3Rec.key ∧
      decodeURIComponent (encodeURIComponent c3Rec.key) = some c3Rec.key ∧
      (∀ k : String, decodeURIComponent (encodeURIComponent k) = some k)) :=
  ⟨by decide, c3_urls_roundtrip "http://localhost:4000" c3File c3Rec (by decide)⟩

/-- C6: an absent or empty `files` batch is rejected with the 400 response
`"No files uploaded"`, and no S3 operation and no database operation is
issued — external state is untouched. -/
theorem c6_empty_batch_rejected (baseUrl : String) :
    uploadHandler baseUrl none = (.err 400 "No files uploaded", [], []) ∧
    uploadHandler baseUrl (some []) = (.err 400 "No files uploaded", [], []) :=
  ⟨rfl, rfl⟩

/-- C7: deleting an id that matches no record answers 404 `"File not found"`
and issues no S3 deletion and no database deletion — state is unchanged. -/
theorem c7_delete_missing_not_found (db : List (String × FileRecord)) (id : String)
    (h : findById db id = none) :
    deleteHandler db id = (.err 404 "File not found", [], []) := by
  unfold deleteHandler
  rw [h]

theorem c7_delete_missing_not_found_witness :
    findById [] "64a0" = none ∧
    deleteHandler [] "64a0" = (.err 404 "File not found", [], []) :=
  ⟨rfl, c7_delete_missing_not_found [] "64a0" rfl⟩

/-- C9: the list route returns every stored FileRecord (a permutation of the
database, with equal length, hence no pagination or truncation), sorted by
`uploadedAt` descending — newest first. -/
theorem c9_list_sorted_desc (db : List FileRecord) :
    getFilesHandler db = HttpResponse.jsonList (List.insertionSort uploadedAtDesc db) ∧
    List.Perm (List.insertionSort uploadedAtDesc db) db ∧
    List.Sorted uploadedAtDesc (List.insertionSort uploadedAtDesc db) ∧
    (List.insertionSort uploadedAtDesc db).length = db.length :=
  ⟨rfl, List.perm_insertionSort _ _, List.sorted_insertionSort _ _,
    (List.perm_insertionSort _ _).length_eq⟩

/-- C10: when the parsed metadata carries no language tag, the language
component of the derived cover-image key is the literal `"English"` — the
default is substituted silently (`language || "English"`), the key neither
omits the component nor fails. -/
theorem c10_language_default_english (name : String) (md : CommonMeta) (pic : Picture)
    (now : JsDate) (r : ℚ) (hlang : md.language = none) :
    jsOrStr md.language "English" = "English" ∧
    mkCoverImageKey name md pic now r =
      stripDotExt (jsReplaceWs name) ++ "-" ++ "English" ++ "-" ++
      yearToStr (jsOrNat (jsOrNat md.year)) ++ "-" ++ getFormattedDate now r ++ "." ++
      jsIndex (jsSplit '/' (jsOrStr pic.format "image/jpg").data) 1 := by
  constructor
  · rw [hlang]
    rfl
  · unfold mkCoverImageKey
    rw [hlang]
    rfl

def c10Md : CommonMeta := ⟨some 2020, none, [⟨some "image/png", []⟩]⟩

theorem c10_language_default_english_witness :
    c10Md.language = none ∧
    (jsOrStr c10Md.language "English" = "English" ∧
      mkCoverImageKey "My Song.mp3" c10Md ⟨some "image/png", []⟩ ⟨2025, 0, 1⟩ 0 =
        stripDotExt (jsReplaceWs "My Song.mp3") ++ "-" ++ "English" ++ "-" ++
        yearToStr (jsOrNat (jsOrNat c10Md.year)) ++ "-" ++
        getFormattedDate ⟨2025, 0, 1⟩ 0 ++ "." ++
        jsIndex (jsSplit '/' (jsOrStr (⟨some "image/png", []⟩ : Picture).format
          "image/jpg").data) 1) :=
  ⟨rfl, c10_language_default_english "My Song.mp3" c10Md ⟨some "image/png", []⟩
    ⟨2025, 0, 1⟩ 0 rfl⟩

/-- Claim C2's key template exactly as stated: the year component is the
rendered year whenever a release year is present in the metadata, and the
literal `"null"` only when it is absent. -/
def coverKeySpecC2 (name : String) (md : CommonMeta) (pic : Picture) (now : JsDate)
    (r : ℚ) : String :=
  stripDotExt (jsReplaceWs name) ++ "-" ++ jsOrStr md.language "English" ++ "-" ++
  (match md.year with
   | none => "null"
   | some y => toString y) ++ "-" ++
  (toString now.fullYear ++ pad2 (now.month0 + 1) ++ pad2 now.date) ++
  toString (randomSixDigits r) ++ "." ++
  jsIndex (jsSplit '/' (jsOrStr pic.format "image/jpg").data) 1

def c2Pic : Picture := ⟨some "image/png", []⟩

def c2MdYearZero : CommonMeta := ⟨some 0, none, [c2Pic]⟩

/-- C2, counterexample: with a parsed release year of `0` — present in the
metadata but falsy in JS — the code's `year || null` renders `"null"` while
the claim's template renders `"0"`, so the produced key differs from the
claimed one. -/
theorem c2_counterexample :
    mkCoverImageKey "a.mp3" c2MdYearZero c2Pic ⟨2025, 0, 1⟩ 0 =
      "a-English-null-20250101100000.png" ∧
    coverKeySpecC2 "a.mp3" c2MdYearZero c2Pic ⟨2025, 0, 1⟩ 0 =
      "a-English-0-20250101100000.png" ∧
    ¬mkCoverImageKey "a.mp3" c2MdYearZero c2Pic ⟨2025, 0, 1⟩ 0 =
      coverKeySpecC2 "a.mp3" c2MdYearZero c2Pic ⟨2025, 0, 1⟩ 0 := by
  refine ⟨by decide, by decide, by decide⟩

/-- C2 as amended: for every audio file with an embedded picture the derived
cover key is `base-language-year-yyyymmddNNNNNN.ext`, where the base is the
sanitized name without extension, the year component renders the parsed year
and is the literal `"null"` when the year is absent **or parsed as 0** (JS
falsiness), the date part is yyyymmdd of the current date, `NNNNNN` is a
six-digit number in `[100000, 999999]` whenever `Math.random()` is in
`[0, 1)`, and the extension is the subtype of the picture's declared image
format (default `image/jpg` when undeclared). -/
theorem c2_cover_key_format (name : String) (md : CommonMeta) (pic : Picture)
    (now : JsDate) (r : ℚ) (h0 : 0 ≤ r) (h1 : r < 1) :
    ∃ n : Nat, 100000 ≤ n ∧ n ≤ 999999 ∧
      mkCoverImageKey name md pic now r =
        stripDotExt (jsReplaceWs name) ++ "-" ++ jsOrStr md.language "English" ++ "-" ++
        (match md.year with
         | none => "null"
         | some y => if y = 0 then "null" else toString y) ++ "-" ++
        (toString now.fullYear ++ pad2 (now.month0 + 1) ++ pad2 now.date) ++
        toString n ++ "." ++
        jsIndex (jsSplit '/' (jsOrStr pic.format "image/jpg").data) 1 := by
  refine ⟨randomSixDigits r, (randomSixDigits_bounds r h0 h1).1,
    (randomSixDigits_bounds r h0 h1).2, ?_⟩
  have hy : yearToStr (jsOrNat (jsOrNat md.year)) =
      (match md.year with
       | none => "null"
       | some y => if y = 0 then "null" else toString y) := by
    cases md.year with
    | none => rfl
    | some y =>
      by_cases hy0 : y = 0
      · subst hy0
        rfl
      · simp [jsOrNat, hy0, yearToStr]
  apply String.ext
  simp [mkCoverImageKey, getFormattedDate, hy, String.data_append, List.append_assoc]

theorem c2_cover_key_format_witness :
    (0 : ℚ) ≤ 0 ∧ (0 : ℚ) < 1 ∧
    (∃ n : Nat, 100000 ≤ n ∧ n ≤ 999999 ∧
      mkCoverImageKey "My Song.mp3" c10Md c2Pic ⟨2025, 0, 1⟩ 0 =
        stripDotExt (jsReplaceWs "My Song.mp3") ++ "-" ++
        jsOrStr c10Md.language "English" ++ "-" ++
        (match c10Md.year with
         | none => "null"
         | some y => if y = 0 then "null" else toString y) ++ "-" ++
        (toString (2025 : Nat) ++ pad2 (0 + 1) ++ pad2 1) ++ toString n ++ "." ++
        jsIndex (jsSplit '/' (jsOrStr c2Pic.format "image/jpg").data) 1) :=
  ⟨le_refl 0, zero_lt_one,
    c2_cover_key_format "My Song.mp3" c10Md c2Pic ⟨2025, 0, 1⟩ 0 (le_refl 0) zero_lt_one⟩

/-- C8: for every download request whose key parameter is the encoded form of
key `k`, the route asks the object store to sign a `GetObjectCommand` for
exactly key `k` with 60 seconds validity and an attachment
content-disposition carrying the stored filename `k`, and redirects the
caller to the signed URL the store returns. -/
theorem c8_download_signed_60s (k : String) (signedUrl : SignRequest → String) :
    downloadHandler (encodeURIComponent k) signedUrl =
      (some ⟨k, "attachment; filename=\"" ++ k ++ "\"", 60⟩,
        .redirect (signedUrl ⟨k, "attachment; filename=\"" ++ k ++ "\"", 60⟩)) := by
  unfold downloadHandler
  have hdec : jsDecode (encodeURIComponent k).data = some k.data :=
    jsDecode_flatMap_encode k.data
  rw [hdec]

/-- The last `/`-segment of a stored `coverImageUrl` is the URL-encoded cover
key, whatever the base URL. -/
theorem jsSplitPop_cover (base ck : String) :
    jsSplitPop (base ++ "/viewCoverImage/" ++ encodeURIComponent ck) =
      encodeURIComponent ck := by
  unfold jsSplitPop
  have hdata : (base ++ "/viewCoverImage/" ++ encodeURIComponent ck).data =
      (base.data ++ ("/viewCoverImage").data) ++ '/' :: (encodeURIComponent ck).data := by
    have hmid : ("/viewCoverImage/").data = ("/viewCoverImage").data ++ ['/'] := by decide
    simp [String.data_append, hmid]
  rw [hdata, jsSplit_pop_append_slash,
    jsSplit_no_sep '/' _ (encodeURIComponent_data_ne_slash ck)]
  cases hck : encodeURIComponent ck with
  | mk l => rfl

def c4BadFile : UploadedFile :=
  ⟨"a#b.mp3", "audio/mpeg", [], .ok ⟨none, none, [c2Pic]⟩,
    ⟨2025, 0, 1⟩, 0, true, true, true, 0⟩

def c4BadRec : FileRecord :=
  ⟨"a#b.mp3", "http://h/view/a%23b.mp3", "http://h/download/a%23b.mp3",
    some "http://h/viewCoverImage/a%23b-English-null-20250101100000.png", "a#b.mp3", 0⟩

/-- C4, counterexample: uploading `a#b.mp3` stores the cover under the key
`a#b-English-null-20250101100000.png`, but deleting the created record
targets the last path segment of `coverImageUrl`, which is the URL-encoded
`a%23b-English-null-20250101100000.png` — a different key, so the cover
object written by the upload is not the one the delete removes. -/
theorem c4_counterexample :
    (processFile "http://h" c4BadFile).1 =
      [S3Op.put "a#b-English-null-20250101100000.png" "image/png"
        "inline; filename=\"a#b-English-null-20250101100000.png\"",
       S3Op.put "a#b.mp3" "audio/mpeg" "inline; filename=\"a#b.mp3\""] ∧
    (processFile "http://h" c4BadFile).2.1 = [DbOp.insert c4BadRec] ∧
    (deleteHandler [("id0", c4BadRec)] "id0").2.1 =
      [S3Op.delete "a#b.mp3", S3Op.delete "a%23b-English-null-20250101100000.png"] ∧
    ¬(S3Op.delete "a#b-English-null-20250101100000.png"
        ∈ (deleteHandler [("id0", c4BadRec)] "id0").2.1) ∧
    ¬"a%23b-English-null-20250101100000.png" = "a#b-English-null-20250101100000.png" := by
  refine ⟨by decide, by decide, by decide, by decide, by decide⟩

/-- C4 as amended: for every record the upload creates with a cover image,
`coverImageUrl` ends in the URL-encoded cover key, and the delete route
targets exactly that encoded key (`url.split("/").pop()`); this equals the
key the upload stored the cover under exactly when the key consists only of
characters `encodeURIComponent` leaves unchanged — which holds for ordinary
sanitized names but fails, e.g., for names containing `#`. -/
theorem c4_delete_targets_encoded_cover_key (baseUrl : String) (f : UploadedFile)
    (rec : FileRecord) (ck mime : String)
    (hok : (processFile baseUrl f).2.2 = Except.ok rec)
    (hck : coverStage f = Except.ok (some (ck, mime)))
    (db : List (String × FileRecord)) (id : String)
    (hfind : findById db id = some rec) :
    rec.coverImageUrl = some (baseUrl ++ "/viewCoverImage/" ++ encodeURIComponent ck) ∧
    S3Op.delete (encodeURIComponent ck) ∈ (deleteHandler db id).2.1 ∧
    (ck.data.all isUriUnreserved = true →
      S3Op.delete ck ∈ (deleteHandler db id).2.1) := by
  obtain ⟨_, _, hcov, _, _, _⟩ := processFile_ok_fields baseUrl f rec hok
  have hinfo : coverInfoOf f = some (ck, mime) := by
    unfold coverInfoOf
    rw [hck]
  have hurl : rec.coverImageUrl =
      some (baseUrl ++ "/viewCoverImage/" ++ encodeURIComponent ck) := by
    rw [hcov, hinfo]
    rfl
  have hne : ¬(baseUrl ++ "/viewCoverImage/" ++ encodeURIComponent ck) = "" := by
    intro h
    have hd : (baseUrl ++ "/viewCoverImage/" ++ encodeURIComponent ck).data = [] := by
      rw [h]
    simp [String.data_append] at hd
  have hmem : S3Op.delete (encodeURIComponent ck) ∈ (deleteHandler db id).2.1 := by
    unfold deleteHandler
    rw [hfind]
    simp only [hurl, hne, if_neg, jsSplitPop_cover]
    simp
  refine ⟨hurl, hmem, fun hall => ?_⟩
  rw [← encodeURIComponent_of_unreserved ck hall]
  exact hmem

def c4File : UploadedFile :=
  ⟨"My Song.mp3", "audio/mpeg", [], .ok ⟨none, none, [c2Pic]⟩,
    ⟨2025, 0, 1⟩, 0, true, true, true, 0⟩

def c4Rec : FileRecord :=
  ⟨"My_Song.mp3", "http://h/view/My_Song.mp3", "http://h/download/My_Song.mp3",
    some "http://h/viewCoverImage/My_Song-English-null-20250101100000.png",
    "My_Song.mp3", 0⟩

theorem c4_delete_targets_encoded_cover_key_witness :
    (processFile "http://h" c4File).2.2 = Except.ok c4Rec ∧
    coverStage c4File =
      Except.ok (some ("My_Song-English-null-20250101100000.png", "image/png")) ∧
    findById [("id0", c4Rec)] "id0" = some c4Rec ∧
    (c4Rec.coverImageUrl = some ("http://h" ++ "/viewCoverImage/" ++
        encodeURIComponent "My_Song-English-null-20250101100000.png") ∧
      S3Op.delete (encodeURIComponent "My_Song-English-null-20250101100000.png")
        ∈ (deleteHandler [("id0", c4Rec)] "id0").2.1 ∧
      (("My_Song-English-null-20250101100000.png").data.all isUriUnreserved = true →
        S3Op.delete "My_Song-English-null-20250101100000.png"
          ∈ (deleteHandler [("id0", c4Rec)] "id0").2.1)) :=
  ⟨by decide, by decide, by decide,
    c4_delete_targets_encoded_cover_key "http://h" c4File c4Rec
      "My_Song-English-null-20250101100000.png" "image/png" (by decide) (by decide)
      [("id0", c4Rec)] "id0" (by decide)⟩

theorem collectRecords_none
    (results : List (List S3Op × List DbOp × Except Unit FileRecord))
    (hf : ∃ x ∈ results, x.2.2 = Except.error ()) :
    collectRecords results = none := by
  induction results with
  | nil => simp at hf
  | cons x rest ih =>
    obtain ⟨y, hy, he⟩ := hf
    rcases x with ⟨ops, dbops, exc⟩
    cases exc with
    | error e => simp [collectRecords]
    | ok r =>
      rcases List.mem_cons.mp hy with hh | hh
      · subst hh
        simp at he
      · rw [show collectRecords ((ops, dbops, Except.ok r) :: rest) =
          (collectRecords rest).map (fun t => r :: t) from rfl]
        rw [ih ⟨y, hh, he⟩]
        rfl

theorem processFile_ops_puts (baseUrl : String) (f : UploadedFile) :
    ∀ op ∈ (processFile baseUrl f).1, ∃ k c d, op = S3Op.put k c d := by
  intro op hop
  cases hcs : coverStage f with
  | error e =>
    simp [processFile, hcs] at hop
  | ok info =>
    by_cases hfp : f.filePutOk = true
    · by_cases hdb : f.dbOk = true
      · simp only [processFile, hcs, hfp, hdb, if_true] at hop
        rcases info with _ | ⟨ck, mime⟩
        · simp at hop
          exact ⟨_, _, _, hop⟩
        · simp at hop
          rcases hop with h | h
          · exact ⟨_, _, _, h⟩
          · exact ⟨_, _, _, h⟩
      · simp only [processFile, hcs, hfp, hdb] at hop
        rcases info with _ | ⟨ck, mime⟩
        · simp at hop
          exact ⟨_, _, _, hop⟩
        · simp at hop
          rcases hop with h | h
          · exact ⟨_, _, _, h⟩
          · exact ⟨_, _, _, h⟩
    · simp only [processFile, hcs, hfp] at hop
      rcases info with _ | ⟨ck, mime⟩
      · simp at hop
      · simp at hop
        exact ⟨_, _, _, hop⟩

/-- C5: whenever at least one file of a (nonempty) batch fails — its metadata
parse, an S3 put or the database insert — the whole request answers the
generic 500 `"File upload failed"` carrying no per-file outcomes, while every
S3 object successfully written for sibling files stays in the issued
operation list, and the upload route never issues any S3 delete: nothing is
rolled back. -/
theorem c5_batch_failure_no_rollback (baseUrl : String) (fs : List UploadedFile)
    (hfail : ∃ f ∈ fs, (processFile baseUrl f).2.2 = Except.error ()) :
    (uploadHandler baseUrl (some fs)).1 = HttpResponse.err 500 "File upload failed" ∧
    (∀ f ∈ fs, ∀ op ∈ (processFile baseUrl f).1,
      op ∈ (uploadHandler baseUrl (some fs)).2.1) ∧
    (∀ op ∈ (uploadHandler baseUrl (some fs)).2.1, ∀ k, ¬op = S3Op.delete k) := by
  obtain ⟨f0, hf0, he0⟩ := hfail
  cases fs with
  | nil => simp at hf0
  | cons g gs =>
    have hcol : collectRecords ((g :: gs).map (processFile baseUrl)) = none :=
      collectRecords_none _ ⟨processFile baseUrl f0, List.mem_map_of_mem _ hf0, he0⟩
    refine ⟨?_, ?_, ?_⟩
    · simp only [uploadHandler, hcol]
    · intro f hf op hop
      simp only [uploadHandler, hcol]
      rw [List.mem_flatten]
      refine ⟨(processFile baseUrl f).1, ?_, hop⟩
      rw [List.mem_map]
      exact ⟨processFile baseUrl f, List.mem_map_of_mem _ hf, rfl⟩
    · intro op hop k
      simp only [uploadHandler, hcol] at hop
      rw [List.mem_flatten] at hop
      obtain ⟨L, hL, hopL⟩ := hop
      rw [List.mem_map] at hL
      obtain ⟨res, hres, hres1⟩ := hL
      rw [List.mem_map] at hres
      obtain ⟨f, _, hfeq⟩ := hres
      subst hfeq
      rw [← hres1] at hopL
      obtain ⟨k', c', d', heq⟩ := processFile_ops_puts baseUrl f op hopL
      subst heq
      intro hcontra
      exact S3Op.noConfusion hcontra

def c5Bad : UploadedFile :=
  ⟨"Bad Song.mp3", "audio/mpeg", [], .error (), ⟨2025, 0, 1⟩, 0, true, true, true, 0⟩

def c5Good : UploadedFile :=
  ⟨"Good.mp3", "audio/mpeg", [], .ok ⟨none, none, []⟩, ⟨2025, 0, 1⟩, 0, true, true, true, 1⟩

theorem c5_batch_failure_no_rollback_witness :
    (∃ f ∈ [c5Good, c5Bad], (processFile "http://h" f).2.2 = Except.error ()) ∧
    ((uploadHandler "http://h" (some [c5Good, c5Bad])).1 =
        HttpResponse.err 500 "File upload failed" ∧
      (∀ f ∈ [c5Good, c5Bad], ∀ op ∈ (processFile "http://h" f).1,
        op ∈ (uploadHandler "http://h" (some [c5Good, c5Bad])).2.1) ∧
      (∀ op ∈ (uploadHandler "http://h" (some [c5Good, c5Bad])).2.1,
        ∀ k, ¬op = S3Op.delete k)) :=
  ⟨by decide, c5_batch_failure_no_rollback "http://h" [c5Good, c5Bad] (by decide)⟩
